import Mathlib

/-!
Shallow embedding of `personal_finance_manager.py`: a personal finance
tracker with income/expense transactions per user, balances, sorted text
reports and JSON persistence.

Modelling conventions:
* Python `float` amounts are embedded as `ℚ` (exact arithmetic, as the
  specification demands for balances).
* The `Income`/`Expense` subclasses of `Transaction` become a `TKind` tag
  with a third value `TKind.base` for plain `Transaction` instances, which
  are neither (`isinstance(t, Income)` iff `kind = income`, likewise for
  `expense`).
* Exceptions become `Option`/`Except`: `generate_report` returns `none`
  where the Python code raises a date-parse `ValueError`; registry
  operations return `Except Err _` where Python raises `KeyError`.
* `datetime.strptime(s, "%Y-%m-%d")` is embedded by `parseDate`, which
  follows CPython's `_strptime` regex for this format (ASCII digits):
  `%Y` is exactly four digits, `%m` matches `1[0-2]|0[1-9]|[1-9]`, `%d`
  matches `3[01]|[12]\d|0[1-9]|[1-9]`, the whole string must be consumed,
  and the `datetime` constructor additionally checks `1 <= year` and the
  day against the month length (with the Gregorian leap rule).
* The JSON file is embedded structurally as `SavedDoc`; a file system is a
  partial map `String → Option SavedDoc` (`none` = missing file, the
  `FileNotFoundError` branch).
* Python `dict` is embedded as an association list in insertion order:
  assignment to an existing key overwrites in place, a new key is appended.
-/

/-- One decimal ASCII digit, as matched by `\d` in the strptime regex. -/
def digit? (c : Char) : Option Nat :=
  if 48 ≤ c.toNat ∧ c.toNat ≤ 57 then some (c.toNat - 48) else none

/-- `%Y`: exactly four digits. -/
def readYear : List Char → Option (Nat × List Char)
  | c1 :: c2 :: c3 :: c4 :: rest =>
    match digit? c1, digit? c2, digit? c3, digit? c4 with
    | some d1, some d2, some d3, some d4 =>
        some (d1 * 1000 + d2 * 100 + d3 * 10 + d4, rest)
    | _, _, _, _ => none
  | _ => none

/-- `%m` / `%d`: one or two digits, greedily two when the two-digit value is
in `1..hi` (`hi = 12` for months, `hi = 31` for days), else one digit in
`1..9`.  This is what the strptime alternations `1[0-2]|0[1-9]|[1-9]` and
`3[01]|[12]\d|0[1-9]|[1-9]` accept. -/
def read2or1 (hi : Nat) : List Char → Option (Nat × List Char)
  | c1 :: c2 :: rest =>
    match digit? c1, digit? c2 with
    | some d1, some d2 =>
        if 1 ≤ 10 * d1 + d2 ∧ 10 * d1 + d2 ≤ hi then some (10 * d1 + d2, rest)
        else if 1 ≤ d1 then some (d1, c2 :: rest)
        else none
    | some d1, none => if 1 ≤ d1 then some (d1, c2 :: rest) else none
    | none, _ => none
  | [c1] =>
    match digit? c1 with
    | some d1 => if 1 ≤ d1 then some (d1, ([] : List Char)) else none
    | none => none
  | [] => none

/-- The literal `-` separators of the format string. -/
def expectDash : List Char → Option (List Char)
  | c :: rest => if c = '-' then some rest else none
  | [] => none

/-- A parsed calendar date, the payload of a Python `datetime` as far as
this program uses it (comparison for sorting). -/
structure PDate where
  year : Nat
  month : Nat
  day : Nat
deriving DecidableEq

/-- Gregorian leap-year rule, as in Python's `datetime`. -/
def isLeap (y : Nat) : Bool :=
  (y % 4 == 0 && y % 100 != 0) || y % 400 == 0

/-- Length of a month, as validated by the `datetime` constructor. -/
def daysInMonth (y m : Nat) : Nat :=
  if m = 2 then (if isLeap y then 29 else 28)
  else if m = 4 ∨ m = 6 ∨ m = 9 ∨ m = 11 then 30
  else 31

/-- `datetime.strptime(s, "%Y-%m-%d")`: `none` is the raised `ValueError`. -/
def parseDate (s : String) : Option PDate :=
  (readYear s.toList).bind fun yr =>
    (expectDash yr.2).bind fun r2 =>
      (read2or1 12 r2).bind fun mo =>
        (expectDash mo.2).bind fun r4 =>
          (read2or1 31 r4).bind fun dy =>
            if dy.2 = [] ∧ 1 ≤ yr.1 ∧ dy.1 ≤ daysInMonth yr.1 mo.1 then
              some ⟨yr.1, mo.1, dy.1⟩
            else none

/-- The tag distinguishing the `Transaction` class hierarchy: a plain
`Transaction`, an `Income`, or an `Expense`. -/
inductive TKind where
  | base
  | income
  | expense
deriving DecidableEq

/-- A transaction record: `amount`, `date`, `description` fields plus the
class tag. -/
structure Transaction where
  amount : ℚ
  date : String
  description : String
  kind : TKind
deriving DecidableEq

/-- Python `f"{x:.2f}"` on the embedded rational amount.  For amounts that
are exact multiples of `1/100` (the only ones this development evaluates)
this agrees with CPython's float formatting. -/
def fmt2 (q : ℚ) : String :=
  let c : ℤ := ⌊q * 100 + 1 / 2⌋
  let n : Nat := c.natAbs
  (if c < 0 then "-" else "") ++ toString (n / 100) ++ "." ++
    (if n % 100 < 10 then "0" else "") ++ toString (n % 100)

/-- `Transaction.__str__`. -/
def Transaction.str (t : Transaction) : String :=
  t.date ++ " - " ++ t.description ++ ": $" ++ fmt2 t.amount

/-- `UserProfile`: owner name plus the transaction list (the ledger). -/
structure UserProfile where
  name : String
  transactions : List Transaction
deriving DecidableEq

/-- `UserProfile.add_transaction`: appends.  The `isinstance` `TypeError`
check is enforced by the Lean type, so the embedded operation is total. -/
def UserProfile.add_transaction (p : UserProfile) (t : Transaction) : UserProfile :=
  ⟨p.name, p.transactions ++ [t]⟩

/-- `UserProfile.get_balance`: sum over the `Income` instances minus sum
over the `Expense` instances. -/
def UserProfile.get_balance (p : UserProfile) : ℚ :=
  ((p.transactions.filter fun t => t.kind == TKind.income).map Transaction.amount).sum -
    ((p.transactions.filter fun t => t.kind == TKind.expense).map Transaction.amount).sum

/-- The date of a transaction as parsed for the sort key (junk default for
unparsable dates; `generate_report` only sorts when every date parses). -/
def txDate (t : Transaction) : PDate :=
  (parseDate t.date).getD ⟨0, 0, 0⟩

/-- Numeric encoding of a date, order-isomorphic to calendar order on
valid dates. -/
def PDate.key (p : PDate) : Nat :=
  p.year * 10000 + p.month * 100 + p.day

def txKey (t : Transaction) : Nat :=
  (txDate t).key

/-- Calendar (lexicographic) order on parsed dates, the order `datetime`
objects compare in. -/
def dateLe (a b : PDate) : Prop :=
  a.year < b.year ∨
    (a.year = b.year ∧ (a.month < b.month ∨ (a.month = b.month ∧ a.day ≤ b.day)))

/-- The stable sort performed by `self.transactions.sort(key=...)`
(Python's sort is stable; insertion sort is a stable sort, and a stable
sort by a given key is unique, see the filter lemmas below). -/
def sortByDate (l : List Transaction) : List Transaction :=
  List.insertionSort (fun a b => txKey a ≤ txKey b) l

/-- The list of report lines built by `generate_report` for a (sorted)
profile. -/
def reportLines (p : UserProfile) : List String :=
  ("Report for " ++ p.name ++ ":") :: "Transactions:" ::
    (p.transactions.map Transaction.str ++
      ["Current Balance: $" ++ fmt2 p.get_balance])

/-- `UserProfile.generate_report`.  Returns the report string together with
the post-call profile (the sort is destructive in Python); `none` is the
`ValueError` raised by `strptime` while computing sort keys. -/
def UserProfile.generate_report (p : UserProfile) : Option (String × UserProfile) :=
  if p.transactions.all fun t => (parseDate t.date).isSome then
    some (String.intercalate "\n" (reportLines ⟨p.name, sortByDate p.transactions⟩),
      ⟨p.name, sortByDate p.transactions⟩)
  else none

/-- Errors surfaced by the registry operations: `KeyError` ("User profile
not found") and the date-parse `ValueError`. -/
inductive Err where
  | notFound
  | dateParse
deriving DecidableEq

/-- `FinanceManager`: the registry, a Python dict embedded as an
association list in insertion order. -/
structure FinanceManager where
  profiles : List (String × UserProfile)
deriving DecidableEq

/-- `FinanceManager.add_user`: dict assignment keyed by the profile's
name — overwrite in place if the key is present, else append. -/
def FinanceManager.add_user (fm : FinanceManager) (p : UserProfile) : FinanceManager :=
  match fm.profiles.lookup p.name with
  | some _ => ⟨fm.profiles.map fun e => if e.1 == p.name then (e.1, p) else e⟩
  | none => ⟨fm.profiles ++ [(p.name, p)]⟩

/-- `FinanceManager.remove_user`: `del` when present, `KeyError` when
absent (on error the registry is unchanged: no new state is produced). -/
def FinanceManager.remove_user (fm : FinanceManager) (name : String) :
    Except Err FinanceManager :=
  match fm.profiles.lookup name with
  | some _ => .ok ⟨fm.profiles.filter fun e => e.1 != name⟩
  | none => .error .notFound

/-- `FinanceManager.get_user_profile`. -/
def FinanceManager.get_user_profile (fm : FinanceManager) (name : String) :
    Except Err UserProfile :=
  match fm.profiles.lookup name with
  | some p => .ok p
  | none => .error .notFound

/-- One serialized transaction object of the JSON document. -/
structure SavedTransaction where
  amount : ℚ
  date : String
  description : String
  type : String
deriving DecidableEq

/-- The serialization of one transaction performed by `save_profiles`:
`'Income' if isinstance(t, Income) else 'Expense'`. -/
def saveTx (t : Transaction) : SavedTransaction :=
  ⟨t.amount, t.date, t.description,
    if t.kind == TKind.income then "Income" else "Expense"⟩

/-- The JSON document written by `save_profiles`, structurally. -/
abbrev SavedDoc := List (String × List SavedTransaction)

/-- `FinanceManager.save_profiles`: serialize every profile in order. -/
def FinanceManager.save_profiles (fm : FinanceManager) : SavedDoc :=
  fm.profiles.map fun e => (e.1, e.2.transactions.map saveTx)

/-- The deserialization of one transaction performed by `load_profiles`:
`Income` when the tag is `"Income"`, else `Expense`. -/
def loadTx (st : SavedTransaction) : Transaction :=
  if st.type == "Income" then ⟨st.amount, st.date, st.description, TKind.income⟩
  else ⟨st.amount, st.date, st.description, TKind.expense⟩

/-- The profile rebuilt by `load_profiles` for one entry of the document:
a fresh `UserProfile(name)` filled by `add_transaction` calls. -/
def profileFromSaved (name : String) (sts : List SavedTransaction) : UserProfile :=
  sts.foldl (fun p st => p.add_transaction (loadTx st)) ⟨name, []⟩

/-- `FinanceManager.load_profiles`.  `doc?` is the file content at the
path: `none` is a missing file (`FileNotFoundError`, caught and ignored);
otherwise every entry is rebuilt and inserted with `add_user` into the
CURRENT registry (the code never clears `self.profiles`). -/
def FinanceManager.load_profiles (fm : FinanceManager) (doc? : Option SavedDoc) :
    FinanceManager :=
  match doc? with
  | none => fm
  | some doc => doc.foldl (fun acc e => acc.add_user (profileFromSaved e.1 e.2)) fm

/-- `load_profiles` against a file store (partial map from path to
document): the file-system boundary of the persistence layer. -/
def loadFromStore (store : String → Option SavedDoc) (path : String)
    (fm : FinanceManager) : FinanceManager :=
  fm.load_profiles (store path)

/-- The CLI `report` command body: look the user up, then generate. -/
def reportOp (fm : FinanceManager) (name : String) : Except Err String :=
  match fm.get_user_profile name with
  | .error e => .error e
  | .ok p =>
    match p.generate_report with
    | none => .error .dateParse
    | some s => .ok s.1

/-- The CLI `balance` command body. -/
def balanceOp (fm : FinanceManager) (name : String) : Except Err ℚ :=
  match fm.get_user_profile name with
  | .error e => .error e
  | .ok p => .ok p.get_balance

/-- The CLI `add` (record) command body for one ledger: a positive signed
amount becomes an `Income`, a negative one an `Expense` with the negated
magnitude; amount `0` is falsy in Python and rejected by the argument
check before any transaction is built. -/
def recordTx (p : UserProfile) (a : ℚ) (date desc : String) : UserProfile :=
  if a = 0 then p
  else if 0 < a then p.add_transaction ⟨a, date, desc, TKind.income⟩
  else p.add_transaction ⟨-a, date, desc, TKind.expense⟩

/-- A sequence of `record` calls for one user, starting from that user's
fresh ledger. -/
def applyRecords (name : String) (recs : List (ℚ × String × String)) : UserProfile :=
  recs.foldl (fun p r => recordTx p r.1 r.2.1 r.2.2) ⟨name, []⟩

/-! ### Lemmas about the date parser -/

theorem digit?_le {c : Char} {d : Nat} (h : digit? c = some d) : d ≤ 9 := by
  unfold digit? at h
  split at h
  · rename_i hc
    cases h
    omega
  · exact absurd h (by simp)

theorem read2or1_bounds {hi : Nat} (hhi : 9 ≤ hi) {cs : List Char} {v : Nat}
    {rest : List Char} (h : read2or1 hi cs = some (v, rest)) : 1 ≤ v ∧ v ≤ hi := by
  match cs with
  | [] => simp [read2or1] at h
  | [c1] =>
    simp only [read2or1] at h
    cases hd : digit? c1 with
    | none => exact absurd h (by simp [hd])
    | some d1 =>
      have h1 := digit?_le hd
      simp only [hd] at h
      by_cases hb : 1 ≤ d1
      · rw [if_pos hb] at h
        obtain ⟨rfl, rfl⟩ : d1 = v ∧ ([] : List Char) = rest := by simpa using h
        omega
      · rw [if_neg hb] at h
        exact absurd h (by simp)
  | c1 :: c2 :: cs2 =>
    simp only [read2or1] at h
    cases hd1 : digit? c1 with
    | none => exact absurd h (by simp [hd1])
    | some d1 =>
      have h1 := digit?_le hd1
      cases hd2 : digit? c2 with
      | none =>
        simp only [hd1, hd2] at h
        by_cases hb : 1 ≤ d1
        · rw [if_pos hb] at h
          obtain ⟨rfl, rfl⟩ : d1 = v ∧ c2 :: cs2 = rest := by simpa using h
          omega
        · rw [if_neg hb] at h
          exact absurd h (by simp)
      | some d2 =>
        have h2 := digit?_le hd2
        simp only [hd1, hd2] at h
        by_cases hcond : 1 ≤ 10 * d1 + d2 ∧ 10 * d1 + d2 ≤ hi
        · rw [if_pos hcond] at h
          obtain ⟨rfl, rfl⟩ : 10 * d1 + d2 = v ∧ cs2 = rest := by simpa using h
          omega
        · rw [if_neg hcond] at h
          by_cases hb : 1 ≤ d1
          · rw [if_pos hb] at h
            obtain ⟨rfl, rfl⟩ : d1 = v ∧ c2 :: cs2 = rest := by simpa using h
            omega
          · rw [if_neg hb] at h
            exact absurd h (by simp)

theorem parseDate_bounds {s : String} {p : PDate} (h : parseDate s = some p) :
    1 ≤ p.month ∧ p.month ≤ 12 ∧ 1 ≤ p.day ∧ p.day ≤ 31 := by
  unfold parseDate at h
  simp only [Option.bind_eq_some] at h
  obtain ⟨yr, _, r2, _, mo, hmo, r4, _, dy, hdy, hfin⟩ := h
  have hm := read2or1_bounds (by omega) hmo
  have hd := read2or1_bounds (by omega) hdy
  by_cases hc : dy.2 = [] ∧ 1 ≤ yr.1 ∧ dy.1 ≤ daysInMonth yr.1 mo.1
  · rw [if_pos hc] at hfin
    cases hfin
    exact ⟨hm.1, hm.2, hd.1, hd.2⟩
  · rw [if_neg hc] at hfin
    exact absurd hfin (by simp)

/-! ### Calendar order versus the numeric sort key -/

theorem key_le_iff_dateLe {a b : PDate}
    (ha : a.month ≤ 12 ∧ a.day ≤ 31) (hb : b.month ≤ 12 ∧ b.day ≤ 31) :
    a.key ≤ b.key ↔ dateLe a b := by
  unfold PDate.key dateLe
  omega

/-! ### Stability of the insertion sort, phrased through filters -/

theorem filter_orderedInsert_key {α : Type} (key : α → Nat) (k : Nat) (a : α) :
    ∀ l : List α,
      (List.orderedInsert (fun x y => key x ≤ key y) a l).filter
          (fun x => key x == k)
        = if key a == k then a :: l.filter (fun x => key x == k)
          else l.filter (fun x => key x == k)
  | [] => by
    by_cases h : key a = k <;> simp [List.orderedInsert, h]
  | b :: l => by
    by_cases hab : key a ≤ key b
    · rw [List.orderedInsert, if_pos hab]
      by_cases h : key a = k <;> simp [List.filter_cons, h]
    · have hba : key b < key a := Nat.lt_of_not_le hab
      rw [List.orderedInsert, if_neg hab]
      rw [List.filter_cons, List.filter_cons]
      by_cases hbk : key b = k
      · have hak : ¬ key a = k := by omega
        simp only [hbk, beq_self_eq_true, if_true, hak, beq_eq_false_iff_ne.mpr hak,
          Bool.false_eq_true, if_false, filter_orderedInsert_key key k a l]
      · simp only [beq_eq_false_iff_ne.mpr hbk, Bool.false_eq_true, if_false,
          filter_orderedInsert_key key k a l]

theorem filter_insertionSort_key {α : Type} (key : α → Nat) (k : Nat) :
    ∀ l : List α,
      (List.insertionSort (fun x y => key x ≤ key y) l).filter (fun x => key x == k)
        = l.filter (fun x => key x == k)
  | [] => rfl
  | a :: l => by
    rw [List.insertionSort, filter_orderedInsert_key, List.filter_cons,
      filter_insertionSort_key key k l]

instance : IsTotal Transaction (fun a b => txKey a ≤ txKey b) :=
  ⟨fun a b => Nat.le_total (txKey a) (txKey b)⟩

instance : IsTrans Transaction (fun a b => txKey a ≤ txKey b) :=
  ⟨fun _ _ _ hab hbc => Nat.le_trans hab hbc⟩

theorem sortByDate_sorted (l : List Transaction) :
    (sortByDate l).Sorted (fun a b => txKey a ≤ txKey b) :=
  List.sorted_insertionSort _ l

theorem sortByDate_perm (l : List Transaction) : List.Perm (sortByDate l) l :=
  List.perm_insertionSort _ l

theorem sortByDate_filter (l : List Transaction) (k : Nat) :
    (sortByDate l).filter (fun t => txKey t == k) = l.filter (fun t => txKey t == k) :=
  filter_insertionSort_key txKey k l

/-- On lists whose dates all parse, the key order is the calendar order. -/
theorem sortByDate_pairwise_dateLe (l : List Transaction)
    (h : ∀ t ∈ l, (parseDate t.date).isSome = true) :
    (sortByDate l).Pairwise (fun a b => dateLe (txDate a) (txDate b)) := by
  have hb : ∀ t ∈ l, (txDate t).month ≤ 12 ∧ (txDate t).day ≤ 31 := by
    intro t ht
    obtain ⟨p, hp⟩ := Option.isSome_iff_exists.mp (h t ht)
    have hbd := parseDate_bounds hp
    unfold txDate
    rw [hp]
    exact ⟨hbd.2.1, hbd.2.2.2⟩
  have hmem : ∀ t ∈ sortByDate l, (txDate t).month ≤ 12 ∧ (txDate t).day ≤ 31 :=
    fun t ht => hb t ((sortByDate_perm l).mem_iff.mp ht)
  refine List.Pairwise.imp_of_mem ?_ (sortByDate_sorted l)
  intro a b hma hmb hk
  exact (key_le_iff_dateLe (hmem a hma) (hmem b hmb)).mp hk

/-! ### Association-list (Python dict) lemmas -/

theorem lookup_cons_eq {β : Type} (k name : String) (v : β) (t : List (String × β)) :
    ((k, v) :: t).lookup name = if name = k then some v else t.lookup name := by
  by_cases h : name = k
  · simp [List.lookup_cons, h]
  · have hb : (name == k) = false := by simp [h]
    simp [List.lookup_cons, hb, h]

theorem lookup_append {β : Type} (l₁ l₂ : List (String × β)) (name : String) :
    (l₁ ++ l₂).lookup name
      = match l₁.lookup name with
        | some v => some v
        | none => l₂.lookup name := by
  induction l₁ with
  | nil => simp
  | cons e t ih =>
    obtain ⟨k, v⟩ := e
    rw [List.cons_append, lookup_cons_eq, lookup_cons_eq]
    by_cases h : name = k
    · simp [h]
    · simp only [if_neg h, ih]

theorem lookup_replaceAll {β : Type} (l : List (String × β)) (n name : String) (p : β) :
    (l.map fun e => if e.1 == n then (e.1, p) else e).lookup name
      = if name = n then (l.lookup name).map (fun _ => p) else l.lookup name := by
  induction l with
  | nil => by_cases h : name = n <;> simp [h]
  | cons e t ih =>
    obtain ⟨k, v⟩ := e
    simp only [List.map_cons]
    by_cases hkn : k = n
    · have hh : (k == n) = true := by simp [hkn]
      rw [if_pos hh, lookup_cons_eq, lookup_cons_eq]
      by_cases hnk : name = k
      · rw [if_pos hnk, if_pos hnk, if_pos (hnk.trans hkn)]
        simp
      · rw [if_neg hnk, if_neg hnk]
        exact ih
    · have hh : ¬ ((k == n) = true) := by simp [hkn]
      rw [if_neg hh, lookup_cons_eq, lookup_cons_eq]
      by_cases hnk : name = k
      · have hnn : ¬ name = n := fun hcon => hkn (hnk ▸ hcon)
        rw [if_pos hnk, if_pos hnk, if_neg hnn]
      · rw [if_neg hnk, if_neg hnk]
        exact ih

theorem lookup_filter_self {β : Type} (l : List (String × β)) (name : String) :
    (l.filter fun e => e.1 != name).lookup name = none := by
  induction l with
  | nil => simp
  | cons e t ih =>
    obtain ⟨k, v⟩ := e
    by_cases h : k = name
    · simp [List.filter_cons, h, ih]
    · simp [List.filter_cons, h, lookup_cons_eq, Ne.symm h, ih]

/-! ### Balance lemmas -/

theorem get_balance_append (name : String) (l : List Transaction) (t : Transaction) :
    UserProfile.get_balance ⟨name, l ++ [t]⟩
      = UserProfile.get_balance ⟨name, l⟩
        + (if t.kind = TKind.income then t.amount else 0)
        - (if t.kind = TKind.expense then t.amount else 0) := by
  rcases t with ⟨a, d, ds, k⟩
  cases k <;>
    simp [UserProfile.get_balance, List.filter_append, List.filter_cons] <;>
    ring

theorem get_balance_perm {l₁ l₂ : List Transaction} (h : List.Perm l₁ l₂)
    (name₁ name₂ : String) :
    UserProfile.get_balance ⟨name₁, l₁⟩ = UserProfile.get_balance ⟨name₂, l₂⟩ := by
  unfold UserProfile.get_balance
  rw [((h.filter _).map _).sum_eq, ((h.filter _).map _).sum_eq]

theorem recordTx_balance (p : UserProfile) (a : ℚ) (d ds : String) :
    (recordTx p a d ds).get_balance = p.get_balance + (if a = 0 then 0 else a) := by
  rcases p with ⟨name, l⟩
  unfold recordTx
  by_cases h0 : a = 0
  · simp [h0]
  · rw [if_neg h0]
    by_cases hpos : 0 < a
    · rw [if_pos hpos]
      show UserProfile.get_balance ⟨name, l ++ [⟨a, d, ds, TKind.income⟩]⟩ = _
      rw [get_balance_append]
      simp [h0]
    · rw [if_neg hpos]
      show UserProfile.get_balance ⟨name, l ++ [⟨-a, d, ds, TKind.expense⟩]⟩ = _
      rw [get_balance_append]
      simp [h0]

theorem applyRecords_balance_aux (recs : List (ℚ × String × String)) :
    ∀ p : UserProfile,
      (recs.foldl (fun q r => recordTx q r.1 r.2.1 r.2.2) p).get_balance
        = p.get_balance + (recs.map fun r => if r.1 = 0 then 0 else r.1).sum := by
  induction recs with
  | nil => intro p; simp
  | cons r t ih =>
    intro p
    rw [List.foldl_cons, ih, recordTx_balance, List.map_cons, List.sum_cons]
    ring

/-- C1: for every user and every sequence of `record` calls, the balance is
the sum of the amounts of the positive-signed records (stored as `Income`
with that amount) minus the sum of the magnitudes of the negative-signed
records (stored as `Expense` with the magnitude as amount), exactly; an
empty ledger has balance `0`.  (A zero amount is falsy in Python and is
rejected by the CLI argument check, recording nothing.) -/
theorem record_balance (name : String) (recs : List (ℚ × String × String)) :
    (applyRecords name recs).get_balance
      = ((recs.filter fun r => decide (0 < r.1)).map fun r => r.1).sum
        - ((recs.filter fun r => decide (r.1 < 0)).map fun r => -r.1).sum
    ∧ (UserProfile.mk name []).get_balance = 0 := by
  have hz : (UserProfile.mk name []).get_balance = 0 := by
    simp [UserProfile.get_balance]
  constructor
  · unfold applyRecords
    rw [applyRecords_balance_aux, hz, zero_add]
    induction recs with
    | nil => simp
    | cons r t ih =>
      simp only [List.map_cons, List.sum_cons, List.filter_cons]
      rcases lt_trichotomy r.1 0 with hlt | heq | hgt
      · have h1 : ¬ r.1 = 0 := ne_of_lt hlt
        have h2 : ¬ 0 < r.1 := lt_asymm hlt
        simp [h1, h2, hlt, ih]
        ring
      · simp [heq, ih]
      · have h1 : ¬ r.1 = 0 := ne_of_gt hgt
        have h2 : ¬ r.1 < 0 := lt_asymm hgt
        simp [h1, hgt, h2, ih]
        ring
  · exact hz

/-! ### Report lemmas -/

theorem generate_report_eq (p : UserProfile)
    (h : ∀ t ∈ p.transactions, (parseDate t.date).isSome = true) :
    p.generate_report
      = some (String.intercalate "\n" (reportLines ⟨p.name, sortByDate p.transactions⟩),
          (⟨p.name, sortByDate p.transactions⟩ : UserProfile)) := by
  unfold UserProfile.generate_report
  rw [if_pos]
  exact List.all_eq_true.mpr fun t ht => h t ht

theorem get_balance_sortByDate (p : UserProfile) :
    UserProfile.get_balance ⟨p.name, sortByDate p.transactions⟩ = p.get_balance :=
  get_balance_perm (sortByDate_perm p.transactions) p.name p.name

/-- C2: for every ledger whose dates are all well-formed ISO dates,
`generate_report` returns the header line, the `Transactions:` line, one
rendered line per transaction in non-decreasing calendar-date order
(stable: the filter identity below pins the relative order of equal-date
transactions to insertion order), then the balance line, joined by
newlines — regardless of the insertion order of the transactions. -/
theorem generate_report_format (p : UserProfile)
    (h : ∀ t ∈ p.transactions, (parseDate t.date).isSome = true) :
    p.generate_report.map Prod.fst
      = some (String.intercalate "\n"
          (("Report for " ++ p.name ++ ":") :: "Transactions:" ::
            ((sortByDate p.transactions).map
                (fun t => t.date ++ " - " ++ t.description ++ ": $" ++ fmt2 t.amount)
              ++ ["Current Balance: $" ++ fmt2 p.get_balance])))
    ∧ (sortByDate p.transactions).Pairwise (fun a b => dateLe (txDate a) (txDate b))
    ∧ ∀ k : Nat, (sortByDate p.transactions).filter (fun t => txKey t == k)
        = p.transactions.filter (fun t => txKey t == k) := by
  refine ⟨?_, sortByDate_pairwise_dateLe _ h, fun k => sortByDate_filter _ k⟩
  rw [generate_report_eq p h]
  simp only [Option.map_some']
  unfold reportLines
  rw [get_balance_sortByDate]
  rfl

/-- C8: calling `generate_report` on a ledger with well-formed dates
mutates the stored transaction list (the sort is in place): afterwards the
stored list is the stable date-ascending reordering of its previous
contents — a permutation (so every individual transaction is unchanged),
sorted by calendar date, with equal-date runs in insertion order. -/
theorem generate_report_mutates (p : UserProfile)
    (h : ∀ t ∈ p.transactions, (parseDate t.date).isSome = true) :
    p.generate_report.map Prod.snd
        = some (⟨p.name, sortByDate p.transactions⟩ : UserProfile)
    ∧ List.Perm (sortByDate p.transactions) p.transactions
    ∧ (sortByDate p.transactions).Pairwise (fun a b => dateLe (txDate a) (txDate b))
    ∧ ∀ k : Nat, (sortByDate p.transactions).filter (fun t => txKey t == k)
        = p.transactions.filter (fun t => txKey t == k) := by
  refine ⟨?_, sortByDate_perm _, sortByDate_pairwise_dateLe _ h,
    fun k => sortByDate_filter _ k⟩
  rw [generate_report_eq p h]
  rfl

/-- C6: `generate_report` fails (the embedded `DateParseError`, `none`)
whenever some stored transaction's date does not match the ISO format,
while the `Transaction` constructor and `add_transaction` are total and
never inspect the date: malformed dates are accepted at construction and
add time and only surface when sort keys are computed during report
generation. -/
theorem report_date_error (p : UserProfile) (t : Transaction)
    (hmem : t ∈ p.transactions) (hbad : parseDate t.date = none) :
    p.generate_report = none
    ∧ ∀ (q : UserProfile) (u : Transaction),
        (q.add_transaction u).transactions = q.transactions ++ [u]
        ∧ (q.add_transaction u).name = q.name := by
  constructor
  · unfold UserProfile.generate_report
    rw [if_neg]
    intro hall
    have hsome := List.all_eq_true.mp hall t hmem
    rw [hbad] at hsome
    exact absurd hsome (by simp)
  · exact fun q u => ⟨rfl, rfl⟩

/-- C10: a plain base `Transaction` (neither `Income` nor `Expense`) is
accepted and stored by `add_transaction` but counted in neither the income
sum nor the expense sum, leaving `get_balance` unchanged, even though it
is rendered as a line of the report. -/
theorem base_transaction_neutral (p : UserProfile) (t : Transaction)
    (hbase : t.kind = TKind.base) :
    (p.add_transaction t).get_balance = p.get_balance
    ∧ t ∈ (p.add_transaction t).transactions
    ∧ ∀ s, (p.add_transaction t).generate_report = some s →
        Transaction.str t ∈ reportLines s.2 := by
  refine ⟨?_, ?_, ?_⟩
  · show UserProfile.get_balance ⟨p.name, p.transactions ++ [t]⟩ = _
    rw [get_balance_append]
    simp [hbase]
  · show t ∈ p.transactions ++ [t]
    simp
  · intro s hs
    have hmm : t ∈ (p.add_transaction t).transactions := by
      show t ∈ p.transactions ++ [t]
      simp
    unfold UserProfile.generate_report at hs
    by_cases hall :
        ∀ u ∈ (p.add_transaction t).transactions, (parseDate u.date).isSome = true
    · rw [if_pos (List.all_eq_true.mpr hall)] at hs
      cases hs
      show Transaction.str t ∈ reportLines ⟨_, sortByDate _⟩
      unfold reportLines
      refine List.mem_cons_of_mem _ (List.mem_cons_of_mem _ ?_)
      refine List.mem_append_left _ ?_
      exact List.mem_map_of_mem _ (((sortByDate_perm _).mem_iff).mpr hmm)
    · rw [if_neg (fun hc => hall (List.all_eq_true.mp hc))] at hs
      exact absurd hs (by simp)

/-! ### More lookup lemmas -/

theorem lookup_append_some {β : Type} {l₁ : List (String × β)} {name : String} {v : β}
    (h : l₁.lookup name = some v) (l₂ : List (String × β)) :
    (l₁ ++ l₂).lookup name = some v := by
  rw [lookup_append, h]

theorem lookup_append_none {β : Type} {l₁ : List (String × β)} {name : String}
    (h : l₁.lookup name = none) (l₂ : List (String × β)) :
    (l₁ ++ l₂).lookup name = l₂.lookup name := by
  rw [lookup_append, h]

theorem lookup_eq_none_of_not_mem {β : Type} {l : List (String × β)} {name : String}
    (h : name ∉ l.map Prod.fst) : l.lookup name = none := by
  induction l with
  | nil => rfl
  | cons e t ih =>
    obtain ⟨k, v⟩ := e
    have h1 : ¬ name = k := fun he => h (by rw [List.map_cons, he]; exact List.mem_cons_self _ _)
    have h2 : name ∉ t.map Prod.fst := fun hm => h (by rw [List.map_cons]; exact List.mem_cons_of_mem _ hm)
    rw [lookup_cons_eq, if_neg h1]
    exact ih h2

theorem lookup_add_user (fm : FinanceManager) (p : UserProfile) (name : String) :
    (fm.add_user p).profiles.lookup name
      = if name = p.name then some p else fm.profiles.lookup name := by
  unfold FinanceManager.add_user
  cases hl : fm.profiles.lookup p.name with
  | some q =>
    show (fm.profiles.map fun e => if e.1 == p.name then (e.1, p) else e).lookup name = _
    rw [lookup_replaceAll]
    by_cases h : name = p.name
    · rw [if_pos h, if_pos h]
      subst h
      rw [hl]
      rfl
    · rw [if_neg h, if_neg h]
  | none =>
    show (fm.profiles ++ [(p.name, p)]).lookup name = _
    by_cases h : name = p.name
    · subst h
      rw [lookup_append_none hl, lookup_cons_eq, if_pos rfl, if_pos rfl]
    · rw [if_neg h]
      cases hl2 : fm.profiles.lookup name with
      | some q => rw [lookup_append_some hl2]
      | none =>
        rw [lookup_append_none hl2, lookup_cons_eq, if_neg h]
        rfl

/-! ### C7: remove_user -/

/-- C7: `remove_user` on an absent name fails with `NotFound` (producing no
new registry state: the registry is unchanged); on a present name it
succeeds, and afterwards `get_user_profile`, the `report` operation and the
`balance` operation for that name all fail with `NotFound`. -/
theorem remove_user_spec (fm : FinanceManager) (name : String) :
    (fm.profiles.lookup name = none →
        fm.remove_user name = .error .notFound)
    ∧ (∀ p, fm.profiles.lookup name = some p →
        fm.remove_user name = .ok ⟨fm.profiles.filter fun e => e.1 != name⟩)
    ∧ ∀ fm2, fm.remove_user name = .ok fm2 →
        fm2.get_user_profile name = .error .notFound
        ∧ reportOp fm2 name = .error .notFound
        ∧ balanceOp fm2 name = .error .notFound := by
  refine ⟨?_, ?_, ?_⟩
  · intro h
    unfold FinanceManager.remove_user
    rw [h]
  · intro p h
    unfold FinanceManager.remove_user
    rw [h]
  · intro fm2 h
    unfold FinanceManager.remove_user at h
    cases hl : fm.profiles.lookup name with
    | none =>
      rw [hl] at h
      exact absurd h (by simp)
    | some p =>
      rw [hl] at h
      have h2 : fm2 = ⟨fm.profiles.filter fun e => e.1 != name⟩ := by
        cases h
        rfl
      subst h2
      have hnone :
          (List.filter (fun e => e.1 != name) fm.profiles).lookup name = none :=
        lookup_filter_self _ _
      refine ⟨?_, ?_, ?_⟩
      · unfold FinanceManager.get_user_profile
        rw [hnone]
      · unfold reportOp FinanceManager.get_user_profile
        rw [hnone]
      · unfold balanceOp FinanceManager.get_user_profile
        rw [hnone]

/-! ### C5: load on a missing file -/

/-- C5: loading from a path that refers to no existing file succeeds (the
`FileNotFoundError` is caught and ignored) and, run against a fresh
registry as every CLI invocation does, yields the empty registry; in
general the registry is left unchanged rather than failing. -/
theorem load_missing_file (store : String → Option SavedDoc) (path : String)
    (h : store path = none) :
    loadFromStore store path ⟨[]⟩ = (⟨[]⟩ : FinanceManager)
    ∧ ∀ fm : FinanceManager, loadFromStore store path fm = fm := by
  constructor
  · unfold loadFromStore FinanceManager.load_profiles
    rw [h]
  · intro fm
    unfold loadFromStore FinanceManager.load_profiles
    rw [h]

/-! ### Load/save lemmas -/

theorem foldl_add_transaction (sts : List SavedTransaction) :
    ∀ p : UserProfile,
      sts.foldl (fun q st => q.add_transaction (loadTx st)) p
        = ⟨p.name, p.transactions ++ sts.map loadTx⟩ := by
  induction sts with
  | nil => intro p; simp
  | cons st t ih =>
    intro p
    rw [List.foldl_cons, ih]
    simp [UserProfile.add_transaction]

theorem profileFromSaved_eq (name : String) (sts : List SavedTransaction) :
    profileFromSaved name sts = ⟨name, sts.map loadTx⟩ := by
  unfold profileFromSaved
  rw [foldl_add_transaction]
  rfl

/-- C4 counterexample: `load_profiles` does NOT replace the in-memory
state.  A registry holding user `"A"` that loads a file containing only
user `"B"` ends up with BOTH users: the pre-load entry `"A"` survives even
though `"A"` does not occur in the file, contradicting "no entries
surviving from the pre-load in-memory state". -/
theorem load_replace_counterexample :
    ((FinanceManager.mk [("A", ⟨"A", []⟩)]).load_profiles
        (some [("B", [])])).profiles.map Prod.fst = ["A", "B"]
    ∧ ((FinanceManager.mk [("A", ⟨"A", []⟩)]).load_profiles
        (some [("B", [])])).profiles.map Prod.fst ≠ ["B"]
    ∧ "A" ∉ (([("B", [])] : SavedDoc).map Prod.fst) := by
  refine ⟨by decide, by decide, by decide⟩

/-- C4 (amended): `load_profiles` on an existing file MERGES the file's
contents into the in-memory state through `add_user`: every name present
in the JSON document ends up mapped to the profile deserialized from the
document (overwriting any in-memory profile of that name), while in-memory
profiles whose names do not occur in the document survive unchanged. -/
theorem load_merges (fm : FinanceManager) (doc : SavedDoc)
    (hdoc : (doc.map Prod.fst).Nodup) :
    ∀ name, (fm.load_profiles (some doc)).profiles.lookup name
      = match doc.lookup name with
        | some sts => some (profileFromSaved name sts)
        | none => fm.profiles.lookup name := by
  induction doc generalizing fm with
  | nil =>
    intro name
    rfl
  | cons e t ih =>
    obtain ⟨k, sts⟩ := e
    rw [List.map_cons] at hdoc
    obtain ⟨hnotin, htail⟩ := List.nodup_cons.mp hdoc
    intro name
    have hstep : fm.load_profiles (some ((k, sts) :: t))
        = (fm.add_user (profileFromSaved k sts)).load_profiles (some t) := rfl
    rw [hstep, ih _ htail]
    by_cases h : name = k
    · subst h
      have ht : t.lookup name = none := lookup_eq_none_of_not_mem hnotin
      rw [ht, lookup_cons_eq, if_pos rfl]
      show (fm.add_user (profileFromSaved name sts)).profiles.lookup name
          = some (profileFromSaved name sts)
      rw [profileFromSaved_eq, lookup_add_user, if_pos rfl]
    · rw [lookup_cons_eq, if_neg h]
      cases hcase : t.lookup name with
      | some sts2 => rfl
      | none =>
        show (fm.add_user (profileFromSaved k sts)).profiles.lookup name
            = fm.profiles.lookup name
        rw [profileFromSaved_eq, lookup_add_user, if_neg h]

theorem loadTx_saveTx {t : Transaction} (h : t.kind ≠ TKind.base) :
    loadTx (saveTx t) = t := by
  rcases t with ⟨a, d, ds, k⟩
  cases k
  · exact absurd rfl h
  · simp [saveTx, loadTx]
  · have hne : ("Expense" == "Income") = false := by decide
    simp [saveTx, loadTx, hne]

theorem load_fold_fresh :
    ∀ (doc : List (String × List SavedTransaction)) (fm : FinanceManager),
      (∀ e ∈ doc, fm.profiles.lookup e.1 = none) →
      (doc.map Prod.fst).Nodup →
      fm.load_profiles (some doc)
        = ⟨fm.profiles ++ doc.map fun e => (e.1, profileFromSaved e.1 e.2)⟩
  | [], fm, _, _ => by
    show fm = _
    rw [List.map_nil, List.append_nil]
  | e :: t, fm, hfresh, hnodup => by
    obtain ⟨k, sts⟩ := e
    rw [List.map_cons] at hnodup
    obtain ⟨hnotin, htail⟩ := List.nodup_cons.mp hnodup
    have hp : fm.profiles.lookup k = none := hfresh _ (List.mem_cons_self _ _)
    have hadd : fm.add_user (profileFromSaved k sts)
        = ⟨fm.profiles ++ [(k, profileFromSaved k sts)]⟩ := by
      rw [profileFromSaved_eq]
      unfold FinanceManager.add_user
      simp only [hp]
    have hfresh2 : ∀ e2 ∈ t,
        (FinanceManager.mk
            (fm.profiles ++ [(k, profileFromSaved k sts)])).profiles.lookup e2.1
          = none := by
      intro e2 he2
      show (fm.profiles ++ [(k, profileFromSaved k sts)]).lookup e2.1 = none
      have h1 := hfresh e2 (List.mem_cons_of_mem _ he2)
      have hne : ¬ e2.1 = k := by
        intro he
        apply hnotin
        show k ∈ List.map Prod.fst t
        exact he ▸ List.mem_map_of_mem Prod.fst he2
      rw [lookup_append_none h1, lookup_cons_eq, if_neg hne]
      rfl
    have hstep : fm.load_profiles (some ((k, sts) :: t))
        = (fm.add_user (profileFromSaved k sts)).load_profiles (some t) := rfl
    rw [hstep, hadd, load_fold_fresh t _ hfresh2 htail]
    simp [List.append_assoc]

/-- C3: saving a registry and loading the result into a fresh registry
reconstructs the registry exactly — same users in the same order, same
transactions with the same kinds and amounts — hence every user's balance
and report text are identical.  The hypotheses are the registry invariants
stated by the data model: unique map keys, each key equal to the owned
profile's name, and every transaction an `Income` or an `Expense`. -/
theorem save_load_roundtrip (fm : FinanceManager)
    (hkeys : (fm.profiles.map Prod.fst).Nodup)
    (hname : ∀ e ∈ fm.profiles, (e.2 : UserProfile).name = e.1)
    (hkind : ∀ e ∈ fm.profiles, ∀ t ∈ (e.2 : UserProfile).transactions,
        t.kind ≠ TKind.base) :
    FinanceManager.load_profiles ⟨[]⟩ (some fm.save_profiles) = fm
    ∧ (∀ name, balanceOp (FinanceManager.load_profiles ⟨[]⟩ (some fm.save_profiles)) name
        = balanceOp fm name)
    ∧ (∀ name, reportOp (FinanceManager.load_profiles ⟨[]⟩ (some fm.save_profiles)) name
        = reportOp fm name) := by
  have hdk : (fm.save_profiles.map Prod.fst).Nodup := by
    unfold FinanceManager.save_profiles
    rw [List.map_map]
    exact hkeys
  have hfreshnil : ∀ e ∈ fm.save_profiles,
      (FinanceManager.mk []).profiles.lookup e.1 = none := fun e _ => rfl
  have hmain : FinanceManager.load_profiles ⟨[]⟩ (some fm.save_profiles) = fm := by
    rw [load_fold_fresh _ _ hfreshnil hdk]
    show (⟨[] ++ (fm.save_profiles.map fun e => (e.1, profileFromSaved e.1 e.2))⟩ :
        FinanceManager) = fm
    rw [List.nil_append]
    unfold FinanceManager.save_profiles
    rw [List.map_map]
    have hentry : ∀ e ∈ fm.profiles,
        ((fun e => (e.1, profileFromSaved e.1 e.2)) ∘
          fun e : String × UserProfile => (e.1, e.2.transactions.map saveTx)) e
          = id e := by
      intro e he
      obtain ⟨k, p⟩ := e
      show (k, profileFromSaved k (p.transactions.map saveTx)) = (k, p)
      rw [profileFromSaved_eq, List.map_map]
      have hc : ∀ t ∈ p.transactions, (loadTx ∘ saveTx) t = id t := fun t ht =>
        loadTx_saveTx (hkind (k, p) he t ht)
      rw [List.map_congr_left hc, List.map_id]
      have hn : p.name = k := hname (k, p) he
      rw [← hn]
    rw [List.map_congr_left hentry, List.map_id]
  exact ⟨hmain, fun name => by rw [hmain], fun name => by rw [hmain]⟩

/-- C9: `save_profiles` writes the kind tag `"Income"` exactly for the
`Income` variant and `"Expense"` for every other transaction — including a
plain base `Transaction`, which `add_transaction` accepts — so after a
save, a base transaction is tagged `"Expense"` and a subsequent load
reconstructs it as an `Expense` with the same fields. -/
theorem save_kind_tags (t : Transaction) :
    ((saveTx t).type = "Income" ↔ t.kind = TKind.income)
    ∧ (∀ name : String,
        (FinanceManager.mk [(name, ⟨name, [t]⟩)]).save_profiles
          = [(name, [saveTx t])])
    ∧ (t.kind = TKind.base →
        (saveTx t).type = "Expense"
        ∧ loadTx (saveTx t) = ⟨t.amount, t.date, t.description, TKind.expense⟩) := by
  refine ⟨?_, fun name => rfl, ?_⟩
  · rcases t with ⟨a, d, ds, k⟩
    cases k <;> simp [saveTx]
  · intro hb
    rcases t with ⟨a, d, ds, k⟩
    cases hb
    constructor
    · simp [saveTx]
    · have hne : ("Expense" == "Income") = false := by decide
      simp [saveTx, loadTx, hne]

/-! ### Concrete witnesses -/

theorem generate_report_format_witness :
    (∀ t ∈ (UserProfile.mk "John"
        [⟨200, "2024-08-05", "Utilities", TKind.expense⟩,
         ⟨1000, "2024-08-01", "Salary", TKind.income⟩]).transactions,
      (parseDate t.date).isSome = true)
    ∧ (UserProfile.mk "John"
        [⟨200, "2024-08-05", "Utilities", TKind.expense⟩,
         ⟨1000, "2024-08-01", "Salary", TKind.income⟩]).generate_report.map Prod.fst
        = some (String.intercalate "\n"
            (("Report for " ++ "John" ++ ":") :: "Transactions:" ::
              ((sortByDate
                  [⟨200, "2024-08-05", "Utilities", TKind.expense⟩,
                   ⟨1000, "2024-08-01", "Salary", TKind.income⟩]).map
                  (fun t => t.date ++ " - " ++ t.description ++ ": $" ++ fmt2 t.amount)
                ++ ["Current Balance: $"
                      ++ fmt2 ((UserProfile.mk "John"
                          [⟨200, "2024-08-05", "Utilities", TKind.expense⟩,
                           ⟨1000, "2024-08-01", "Salary", TKind.income⟩]).get_balance)]))) :=
  ⟨by decide, (generate_report_format _ (by decide)).1⟩

theorem generate_report_mutates_witness :
    (∀ t ∈ (UserProfile.mk "Ann"
        [⟨30, "2024-09-02", "Books", TKind.expense⟩,
         ⟨500, "2024-09-01", "Wages", TKind.income⟩]).transactions,
      (parseDate t.date).isSome = true)
    ∧ (UserProfile.mk "Ann"
        [⟨30, "2024-09-02", "Books", TKind.expense⟩,
         ⟨500, "2024-09-01", "Wages", TKind.income⟩]).generate_report.map Prod.snd
        = some (⟨"Ann", sortByDate
            [⟨30, "2024-09-02", "Books", TKind.expense⟩,
             ⟨500, "2024-09-01", "Wages", TKind.income⟩]⟩ : UserProfile) :=
  ⟨by decide, (generate_report_mutates _ (by decide)).1⟩

theorem save_load_roundtrip_witness :
    ((FinanceManager.mk [("John",
        ⟨"John", [⟨1000, "2024-08-01", "Salary", TKind.income⟩]⟩)]).profiles.map
          Prod.fst).Nodup
    ∧ FinanceManager.load_profiles ⟨[]⟩
        (some (FinanceManager.mk [("John",
          ⟨"John", [⟨1000, "2024-08-01", "Salary", TKind.income⟩]⟩)]).save_profiles)
        = FinanceManager.mk [("John",
            ⟨"John", [⟨1000, "2024-08-01", "Salary", TKind.income⟩]⟩)] :=
  ⟨by decide,
    (save_load_roundtrip _ (by decide) (by decide) (by decide)).1⟩

theorem load_merges_witness :
    ((FinanceManager.mk [("A", ⟨"A", []⟩)]).load_profiles
        (some [("B", [])])).profiles.lookup "A" = some ⟨"A", []⟩ := by
  have h := load_merges ⟨[("A", ⟨"A", []⟩)]⟩ [("B", [])] (by decide) "A"
  rw [h]
  decide

theorem load_missing_file_witness :
    ((fun _ : String => (none : Option SavedDoc)) "profiles.json" = none)
    ∧ loadFromStore (fun _ => none) "profiles.json" ⟨[]⟩ = (⟨[]⟩ : FinanceManager) :=
  ⟨rfl, (load_missing_file (fun _ => none) "profiles.json" rfl).1⟩

theorem report_date_error_witness :
    ((⟨5, "not-a-date", "x", TKind.income⟩ : Transaction)
        ∈ (UserProfile.mk "John"
            [⟨5, "not-a-date", "x", TKind.income⟩]).transactions)
    ∧ parseDate "not-a-date" = none
    ∧ (UserProfile.mk "John"
        [⟨5, "not-a-date", "x", TKind.income⟩]).generate_report = none :=
  ⟨by decide, by decide,
    (report_date_error
        (UserProfile.mk "John" [⟨5, "not-a-date", "x", TKind.income⟩])
        ⟨5, "not-a-date", "x", TKind.income⟩ (by decide) (by decide)).1⟩

theorem remove_user_spec_witness :
    (FinanceManager.mk [("John", ⟨"John", []⟩)]).remove_user "John"
        = .ok (⟨[]⟩ : FinanceManager)
    ∧ ((⟨[]⟩ : FinanceManager).get_user_profile "John" = .error .notFound
        ∧ reportOp ⟨[]⟩ "John" = .error .notFound
        ∧ balanceOp ⟨[]⟩ "John" = .error .notFound) :=
  ⟨by rfl,
    (remove_user_spec ⟨[("John", ⟨"John", []⟩)]⟩ "John").2.2 ⟨[]⟩ (by rfl)⟩

theorem save_kind_tags_witness :
    ((⟨5, "2024-01-01", "fee", TKind.base⟩ : Transaction).kind = TKind.base)
    ∧ ((saveTx ⟨5, "2024-01-01", "fee", TKind.base⟩).type = "Expense"
        ∧ loadTx (saveTx ⟨5, "2024-01-01", "fee", TKind.base⟩)
            = ⟨5, "2024-01-01", "fee", TKind.expense⟩) :=
  ⟨rfl, (save_kind_tags _).2.2 rfl⟩

theorem base_transaction_neutral_witness :
    ((⟨7, "2024-03-03", "misc", TKind.base⟩ : Transaction).kind = TKind.base)
    ∧ ((UserProfile.mk "Jane" []).add_transaction
          ⟨7, "2024-03-03", "misc", TKind.base⟩).get_balance
        = (UserProfile.mk "Jane" []).get_balance :=
  ⟨rfl, (base_transaction_neutral _ _ rfl).1⟩
